import Mathlib

set_option linter.unusedVariables false

set_option maxRecDepth 100000

set_option allowUnsafeReducibility true in
attribute [semireducible] Rat.add Rat.sub Rat.mul Rat.inv Rat.ofScientific Rat.neg Rat.div

/-! Shallow embedding of the food-manufacture planning program
(src/food_manufacture: data.py, model.py).

The Pyomo model construction in `FoodManufactureModel.build` is embedded as
the computable function `build`, which returns either the assembled `Model`
(variable domains, constraint list, objective expression) or a `BuildError`
mirroring the Python exception that the construction would raise.  Machine
reals are modelled by the rationals; the decimal reference data is written
as rational fractions (8.8 as 88/10). -/

/-- Decision variables of the Pyomo model (model.py, lines 25-33). -/
inductive V where
  | Buy (o : String) (t : Nat)
  | Use (o : String) (t : Nat)
  | Stock (o : String) (t : Nat)
  | Produce (t : Nat)
  | IsUsed (o : String) (t : Nat)
deriving DecidableEq, Repr

/-- A linear expression: a list of (coefficient, variable) terms plus a constant.
Pyomo expressions occurring in model.py are all of this shape. -/
structure LinExpr where
  terms : List (ℚ × V)
  const : ℚ
deriving DecidableEq, Repr

/-- Value of a linear expression under an assignment of the variables. -/
def LinExpr.eval (e : LinExpr) (a : V → ℚ) : ℚ :=
  (e.terms.map (fun p => p.1 * a p.2)).sum + e.const

/-- Relational operator of a constraint. -/
inductive CRel where
  | le
  | ge
  | eq
deriving DecidableEq, Repr

/-- A single Pyomo constraint instance: lhs REL rhs. -/
structure Constr where
  lhs : LinExpr
  rel : CRel
  rhs : LinExpr
deriving DecidableEq, Repr

/-- Satisfaction of a constraint by an assignment. -/
def Constr.holds (c : Constr) (a : V → ℚ) : Prop :=
  match c.rel with
  | .le => c.lhs.eval a ≤ c.rhs.eval a
  | .ge => c.rhs.eval a ≤ c.lhs.eval a
  | .eq => c.lhs.eval a = c.rhs.eval a

instance (c : Constr) (a : V → ℚ) : Decidable (c.holds a) := by
  rcases c with ⟨lhs, rel, rhs⟩
  rcases rel <;> unfold Constr.holds <;> exact inferInstance

/-- Variable domain, as declared by `pyo.Var` in model.py: `NonNegativeReals`,
`NonNegativeReals` with `bounds=(0, ub)`, or `Binary`. -/
inductive Dom where
  | nonneg
  | nonnegUB (ub : ℚ)
  | binary
deriving DecidableEq, Repr

/-- Membership of a value in a variable domain. -/
def Dom.holds : Dom → ℚ → Prop
  | .nonneg, x => 0 ≤ x
  | .nonnegUB ub, x => 0 ≤ x ∧ x ≤ ub
  | .binary, x => x = 0 ∨ x = 1

instance (d : Dom) (x : ℚ) : Decidable (d.holds x) := by
  rcases d <;> unfold Dom.holds <;> exact inferInstance

/-- Errors that the embedded model construction can raise.  `keyError` models
the Python built-in `KeyError` (missing dict key, missing DataFrame label,
invalid index of a Pyomo `Var`).  `trivialBool` models Pyomo rejecting a
constraint rule that returned a plain Python `bool` (Pyomo: the constraint
expression "resolved to a trivial Boolean").  `validationError` is modelled
from the spec: section 7 of the spec names a dedicated `ValidationError`
raised before building; no such class or raise site exists anywhere under
src/, so no path of `build` produces it. -/
inductive BuildError where
  | keyError (key : String)
  | trivialBool
  | validationError (msg : String)
deriving DecidableEq, Repr

/-- True exactly on the error class the spec calls `ValidationError`. -/
def BuildError.isValidation : BuildError → Bool
  | .validationError _ => true
  | _ => false

/-- The assembled optimization model: index sets, variable domains,
constraint list, and the (maximized) objective expression. -/
structure Model where
  T : List Nat
  O : List String
  vars : List (V × Dom)
  cons : List Constr
  objective : LinExpr
deriving DecidableEq, Repr

/-- An assignment is feasible for a model when it respects every declared
variable domain and satisfies every constraint. -/
def Model.feasible (M : Model) (a : V → ℚ) : Prop :=
  (∀ vd ∈ M.vars, Dom.holds vd.2 (a vd.1)) ∧ (∀ c ∈ M.cons, c.holds a)

instance (M : Model) (a : V → ℚ) : Decidable (M.feasible a) := by
  unfold Model.feasible; infer_instance

/-- Objective value of an assignment. -/
def Model.objValue (M : Model) (a : V → ℚ) : ℚ :=
  M.objective.eval a

/-- Optimality for the (maximized) objective: feasible, and no feasible
assignment attains a larger objective value. -/
def Model.optimal (M : Model) (a : V → ℚ) : Prop :=
  M.feasible a ∧ ∀ b, M.feasible b → M.objValue b ≤ M.objValue a

/-! Reference data (data.py). -/

/-- One row of the oils DataFrame: id, type and hardness (data.py lines 8-14). -/
structure Oil where
  id : String
  type : String
  hardness : ℚ
deriving DecidableEq, Repr

/-- The oils catalog of `load_oils_data` (data.py lines 3-15). -/
def load_oils_data : List Oil :=
  [⟨"VEG1", "Veg", 88/10⟩,
   ⟨"VEG2", "Veg", 61/10⟩,
   ⟨"OIL1", "NonVeg", 2⟩,
   ⟨"OIL2", "NonVeg", 42/10⟩,
   ⟨"OIL3", "NonVeg", 5⟩]

/-- The price DataFrame: an index of months and one list of prices per oil
column, exactly as the dict in `load_market_prices` (data.py lines 17-33). -/
structure PricesDF where
  months : List Nat
  entries : List (String × List ℚ)
deriving DecidableEq, Repr

/-- Models pandas `prices.loc[t, o]`: `none` when the column `o` or the row
label `t` is absent (pandas raises `KeyError` there). -/
def PricesDF.loc (df : PricesDF) (t : Nat) (o : String) : Option ℚ :=
  match df.entries.lookup o with
  | none => none
  | some col =>
    match df.months.indexOf? t with
    | none => none
    | some i => col.get? i

/-- The reference price table of `load_market_prices` (data.py lines 17-33). -/
def load_market_prices : PricesDF :=
  { months := [1, 2, 3, 4, 5, 6],
    entries :=
      [("VEG1", [110, 130, 110, 120, 100, 90]),
       ("VEG2", [120, 130, 140, 110, 120, 100]),
       ("OIL1", [130, 110, 130, 120, 150, 140]),
       ("OIL2", [110, 90, 100, 120, 110, 80]),
       ("OIL3", [115, 115, 95, 125, 105, 135])] }

/-- The scalar parameter dictionary. -/
abbrev Params := List (String × ℚ)

/-- The reference parameters of `get_parameters` (data.py lines 35-52). -/
def get_parameters : Params :=
  [("storage_cost_per_ton", 5),
   ("product_sales_price", 150),
   ("max_veg_refine_per_month", 200),
   ("max_nonveg_refine_per_month", 250),
   ("storage_capacity_per_oil", 1000),
   ("initial_stock", 500),
   ("target_final_stock", 500),
   ("min_hardness", 3),
   ("max_hardness", 6),
   ("min_usage_if_used", 20),
   ("max_ingredients_per_month", 3)]

/-- Models the Python dict access `self.params[key]`, which raises `KeyError`
when the key is absent. -/
def getP (params : Params) (k : String) : Except BuildError ℚ :=
  match params.lookup k with
  | some v => .ok v
  | none => .error (.keyError k)

/-- Models pandas `self.oils.loc[o, "hardness"]` (model.py lines 70 and 75)
for a catalog whose ids are unique: the first row carrying the id.  (With a
duplicated id pandas would return a Series and the constraint construction
would fail; no claim exercises that case.) -/
def hardnessOf (oils : List Oil) (o : String) : ℚ :=
  match oils.find? (fun x => x.id == o) with
  | some x => x.hardness
  | none => 0

/-! Model construction (model.py, `FoodManufactureModel.build`). -/

/-- Models `pyo.Constraint` accepting a rule result: a relational expression
is accepted, while a rule whose two sides are both variable-free has already
collapsed to a plain Python `bool`, which Pyomo rejects ("resolved to a
trivial Boolean"). -/
def addCon (lhs : LinExpr) (rel : CRel) (rhs : LinExpr) : Except BuildError Constr :=
  if lhs.terms = [] ∧ rhs.terms = [] then .error .trivialBool
  else .ok ⟨lhs, rel, rhs⟩

/-- Error-propagating map used to instantiate one constraint per index. -/
def mapME {α β : Type} (f : α → Except BuildError β) : List α → Except BuildError (List β)
  | [] => .ok []
  | x :: xs =>
    match f x with
    | .error e => .error e
    | .ok y =>
      match mapME f xs with
      | .error e => .error e
      | .ok ys => .ok (y :: ys)

/-- The index product `(m.O, m.T)` that Pyomo iterates, first index outermost. -/
def prodOT (O : List String) (T : List Nat) : List (String × Nat) :=
  O.bind (fun o => T.map (fun t => (o, t)))

/-- Rule `balance_rule` (model.py lines 38-43): Stock[o,t] equals previous
stock plus Buy[o,t] minus Use[o,t], where previous stock is the
`initial_stock` parameter for the first period and the variable
Stock[o,t-1] otherwise.  Indexing `Stock` at an invalid period raises. -/
def balanceCon (s0 : ℚ) (tFirst : Nat) (T : List Nat) (o : String) (t : Nat) :
    Except BuildError Constr :=
  if t = tFirst then
    addCon ⟨[(1, V.Stock o t)], 0⟩ .eq ⟨[(1, V.Buy o t), (-1, V.Use o t)], s0⟩
  else if (t - 1) ∈ T then
    addCon ⟨[(1, V.Stock o t)], 0⟩ .eq
      ⟨[(1, V.Stock o (t - 1)), (1, V.Buy o t), (-1, V.Use o t)], 0⟩
  else .error (.keyError "Stock")

/-- Rule `final_stock_rule` (model.py lines 47-48). -/
def finalStockCon (sf : ℚ) (tLast : Nat) (o : String) : Except BuildError Constr :=
  addCon ⟨[(1, V.Stock o tLast)], 0⟩ .eq ⟨[], sf⟩

/-- Rule `capacity_rule` (model.py lines 53-55): the oils of the given type
are selected from the catalog and their Use terms are summed. -/
def capacityCon (oils : List Oil) (oilType : String) (limit : ℚ) (t : Nat) :
    Except BuildError Constr :=
  addCon ⟨(oils.filter (fun x => x.type == oilType)).map (fun x => ((1 : ℚ), V.Use x.id t)), 0⟩
    .le ⟨[], limit⟩

/-- Rule `production_def` (model.py lines 63-64). -/
def productionCon (O : List String) (t : Nat) : Except BuildError Constr :=
  addCon ⟨[(1, V.Produce t)], 0⟩ .eq ⟨O.map (fun o => ((1 : ℚ), V.Use o t)), 0⟩

/-- Rule `hardness_min_rule` (model.py lines 69-71). -/
def hardnessMinCon (oils : List Oil) (O : List String) (minH : ℚ) (t : Nat) :
    Except BuildError Constr :=
  addCon ⟨O.map (fun o => (hardnessOf oils o, V.Use o t)), 0⟩ .ge ⟨[(minH, V.Produce t)], 0⟩

/-- Rule `hardness_max_rule` (model.py lines 74-76). -/
def hardnessMaxCon (oils : List Oil) (O : List String) (maxH : ℚ) (t : Nat) :
    Except BuildError Constr :=
  addCon ⟨O.map (fun o => (hardnessOf oils o, V.Use o t)), 0⟩ .le ⟨[(maxH, V.Produce t)], 0⟩

/-- The hardcoded Big-M constant `big_m = 250.0` (model.py line 83). -/
def bigM : ℚ := 250

/-- Rule `link_rule` (model.py lines 84-85). -/
def linkCon (o : String) (t : Nat) : Except BuildError Constr :=
  addCon ⟨[(1, V.Use o t)], 0⟩ .le ⟨[(bigM, V.IsUsed o t)], 0⟩

/-- Rule `min_usage_rule` (model.py lines 89-90). -/
def minUsageCon (minU : ℚ) (o : String) (t : Nat) : Except BuildError Constr :=
  addCon ⟨[(1, V.Use o t)], 0⟩ .ge ⟨[(minU, V.IsUsed o t)], 0⟩

/-- Rule `max_ingredients_rule` (model.py lines 94-95). -/
def maxIngredientsCon (O : List String) (maxI : ℚ) (t : Nat) : Except BuildError Constr :=
  addCon ⟨O.map (fun o => ((1 : ℚ), V.IsUsed o t)), 0⟩ .le ⟨[], maxI⟩

/-- Rules `logic_veg1_rule` and `logic_veg2_rule` (model.py lines 100-105):
IsUsed[dep, t] is bounded by IsUsed[pre, t].  Indexing `IsUsed` at an id that
is not in the oil set raises `KeyError`, the dependent id first. -/
def logicCon (dep pre : String) (O : List String) (t : Nat) : Except BuildError Constr :=
  if dep ∈ O then
    if pre ∈ O then
      addCon ⟨[(1, V.IsUsed dep t)], 0⟩ .le ⟨[(1, V.IsUsed pre t)], 0⟩
    else .error (.keyError pre)
  else .error (.keyError dep)

/-- Domains of the continuous variables (model.py lines 25-29). -/
def contVarDoms (O : List String) (T : List Nat) (storCap : ℚ) : List (V × Dom) :=
  (prodOT O T).bind
    (fun ot => [(V.Buy ot.1 ot.2, Dom.nonneg), (V.Use ot.1 ot.2, Dom.nonneg),
                (V.Stock ot.1 ot.2, Dom.nonnegUB storCap)]) ++
  T.map (fun t => (V.Produce t, Dom.nonneg))

/-- Domains of the binary variables, declared only in discrete mode
(model.py lines 32-33). -/
def intVarDoms (O : List String) (T : List Nat) : List (V × Dom) :=
  (prodOT O T).map (fun ot => (V.IsUsed ot.1 ot.2, Dom.binary))

/-- Constraint families 1-5 of model.py (lines 38-77), in source order. -/
def buildContCons (oils : List Oil) (params : Params) (T : List Nat) (O : List String) :
    Except BuildError (List Constr) :=
  Except.bind (getP params "initial_stock") (fun s0 =>
  Except.bind (mapME (fun ot => balanceCon s0 (T.headD 0) T ot.1 ot.2) (prodOT O T)) (fun balance =>
  Except.bind (getP params "target_final_stock") (fun sf =>
  Except.bind (mapME (fun o => finalStockCon sf (T.getLastD 0) o) O) (fun finals =>
  Except.bind (getP params "max_veg_refine_per_month") (fun vegCap =>
  Except.bind (mapME (fun t => capacityCon oils "Veg" vegCap t) T) (fun vegCaps =>
  Except.bind (getP params "max_nonveg_refine_per_month") (fun nonvegCap =>
  Except.bind (mapME (fun t => capacityCon oils "NonVeg" nonvegCap t) T) (fun nonvegCaps =>
  Except.bind (mapME (fun t => productionCon O t) T) (fun prodDefs =>
  Except.bind (getP params "min_hardness") (fun minH =>
  Except.bind (mapME (fun t => hardnessMinCon oils O minH t) T) (fun hMins =>
  Except.bind (getP params "max_hardness") (fun maxH =>
  Except.bind (mapME (fun t => hardnessMaxCon oils O maxH t) T) (fun hMaxs =>
  .ok (balance ++ finals ++ vegCaps ++ nonvegCaps ++ prodDefs ++ hMins ++ hMaxs))))))))))))))

/-- Constraint families 6-9 of model.py (lines 80-106), added only in
discrete mode, in source order. -/
def buildIntCons (params : Params) (T : List Nat) (O : List String) :
    Except BuildError (List Constr) :=
  Except.bind (mapME (fun ot => linkCon ot.1 ot.2) (prodOT O T)) (fun links =>
  Except.bind (getP params "min_usage_if_used") (fun minU =>
  Except.bind (mapME (fun ot => minUsageCon minU ot.1 ot.2) (prodOT O T)) (fun mins =>
  Except.bind (getP params "max_ingredients_per_month") (fun maxI =>
  Except.bind (mapME (fun t => maxIngredientsCon O maxI t) T) (fun maxIngs =>
  Except.bind (mapME (fun t => logicCon "VEG1" "OIL3" O t) T) (fun lv1 =>
  Except.bind (mapME (fun t => logicCon "VEG2" "OIL3" O t) T) (fun lv2 =>
  .ok (links ++ mins ++ maxIngs ++ lv1 ++ lv2))))))))

/-- The objective `objective_rule` (model.py lines 111-120): revenue minus
purchase cost minus storage cost, with the price of each Buy term looked up
in the price table (a missing entry raises `KeyError`). -/
def buildObjective (prices : PricesDF) (params : Params) (T : List Nat) (O : List String) :
    Except BuildError LinExpr :=
  Except.bind (getP params "product_sales_price") (fun sale =>
  Except.bind (mapME (fun ot =>
      match prices.loc ot.2 ot.1 with
      | some p => (.ok ((-p, V.Buy ot.1 ot.2)) : Except BuildError (ℚ × V))
      | none => .error (.keyError ot.1)) (prodOT O T)) (fun buyTerms =>
  Except.bind (getP params "storage_cost_per_ton") (fun sc =>
  .ok ⟨T.map (fun t => (sale, V.Produce t)) ++ buyTerms ++
       (prodOT O T).map (fun ot => (-sc, V.Stock ot.1 ot.2)), 0⟩)))

/-- The embedded `FoodManufactureModel.build` (model.py lines 12-124):
the period set is the price-table index, the oil set is the catalog index,
then variables, constraint families (the discrete block only when
`use_integer_logic` is true) and the maximized objective are assembled. -/
def build (oils : List Oil) (prices : PricesDF) (params : Params)
    (useIntegerLogic : Bool) : Except BuildError Model :=
  Except.bind (getP params "storage_capacity_per_oil") (fun storCap =>
  Except.bind (buildContCons oils params prices.months (oils.map (fun x => x.id))) (fun contCons =>
  Except.bind (if useIntegerLogic
               then buildIntCons params prices.months (oils.map (fun x => x.id))
               else .ok []) (fun intCons =>
  Except.bind (buildObjective prices params prices.months (oils.map (fun x => x.id))) (fun obj =>
  .ok { T := prices.months,
        O := oils.map (fun x => x.id),
        vars := contVarDoms (oils.map (fun x => x.id)) prices.months storCap ++
                (if useIntegerLogic then intVarDoms (oils.map (fun x => x.id)) prices.months else []),
        cons := contCons ++ intCons,
        objective := obj }))))

/-! Result extraction (model.py, `FoodManufactureModel.solve`, lines 126-143). -/

/-- One extracted result row (model.py lines 135-141). -/
structure ResultRecord where
  month : Nat
  oil : String
  buy : ℚ
  use : ℚ
  stock : ℚ
deriving DecidableEq, Repr

/-- The wrapper object state: the built model and the `result_data`
attribute that `solve` assigns (model.py lines 9-10 and 142). -/
structure Wrapper where
  model : Model
  result_data : List ResultRecord
deriving DecidableEq, Repr

/-- The extraction loop of `solve` (model.py lines 132-141): one record per
(period, oil) pair, periods outermost, reading the solved values. -/
def extractResults (M : Model) (sol : V → ℚ) : List ResultRecord :=
  M.T.bind (fun t => M.O.map (fun o =>
    ⟨t, o, sol (V.Buy o t), sol (V.Use o t), sol (V.Stock o t)⟩))

/-- The state effect of `solve` after the solver returned the assignment
`sol`: the extracted records are assigned to `self.result_data`
(model.py line 142), and the records are also the produced sequence. -/
def solveStep (w : Wrapper) (sol : V → ℚ) : Wrapper × List ResultRecord :=
  let res := extractResults w.model sol
  ({ w with result_data := res }, res)

/-! Concrete reference models: the result of `build` on the reference data of
data.py, in continuous and in discrete mode, and a simple feasible point. -/

/-- The continuous-mode model built from the reference data. -/
def refModelC : Model :=
  ((build load_oils_data load_market_prices get_parameters false).toOption).getD
    ⟨[], [], [], [], ⟨[], 0⟩⟩

/-- The discrete-mode model built from the reference data. -/
def refModelD : Model :=
  ((build load_oils_data load_market_prices get_parameters true).toOption).getD
    ⟨[], [], [], [], ⟨[], 0⟩⟩

/-- A simple assignment: buy and refine nothing, keep the initial stock of 500
tons of every oil in store all horizon.  Feasible for both reference models. -/
def zeroAssign : V → ℚ
  | .Stock _ _ => 500
  | _ => 0

theorem refC_ok :
    build load_oils_data load_market_prices get_parameters false = .ok refModelC := by
  rfl

theorem refD_ok :
    build load_oils_data load_market_prices get_parameters true = .ok refModelD := by
  rfl

theorem refC_feas : refModelC.feasible zeroAssign := by decide

theorem refD_feas : refModelD.feasible zeroAssign := by decide

/-! Generic inversion lemmas for the error-propagating construction. -/

theorem except_bind_ok {α β : Type} {e : Except BuildError α}
    {f : α → Except BuildError β} {b : β} (h : Except.bind e f = .ok b) :
    ∃ a, e = .ok a ∧ f a = .ok b := by
  cases e with
  | error err => simp [Except.bind] at h
  | ok a => exact ⟨a, rfl, by simpa [Except.bind] using h⟩

theorem except_bind_err {α β : Type} {e : Except BuildError α}
    {f : α → Except BuildError β} {err : BuildError}
    (h : Except.bind e f = .error err) :
    e = .error err ∨ ∃ a, e = .ok a ∧ f a = .error err := by
  cases e with
  | error e0 => left; simpa [Except.bind] using h
  | ok a => right; exact ⟨a, rfl, by simpa [Except.bind] using h⟩

theorem mapME_ok_forall {α β : Type} {f : α → Except BuildError β} :
    ∀ {xs : List α} {ys : List β}, mapME f xs = .ok ys →
      ∀ x ∈ xs, ∃ y ∈ ys, f x = .ok y := by
  intro xs
  induction xs with
  | nil => intro ys h x hx; simp at hx
  | cons x xs ih =>
    intro ys h z hz
    unfold mapME at h
    cases hfx : f x with
    | error e => rw [hfx] at h; simp at h
    | ok y =>
      rw [hfx] at h
      cases hrest : mapME f xs with
      | error e => rw [hrest] at h; simp at h
      | ok ys2 =>
        rw [hrest] at h
        simp only [Except.ok.injEq] at h
        subst h
        rcases List.mem_cons.mp hz with rfl | hz2
        · exact ⟨y, List.mem_cons_self _ _, hfx⟩
        · obtain ⟨y2, hy2, hfy2⟩ := ih hrest z hz2
          exact ⟨y2, List.mem_cons_of_mem _ hy2, hfy2⟩

theorem mapME_ok_mem {α β : Type} {f : α → Except BuildError β} :
    ∀ {xs : List α} {ys : List β}, mapME f xs = .ok ys →
      ∀ y ∈ ys, ∃ x ∈ xs, f x = .ok y := by
  intro xs
  induction xs with
  | nil =>
    intro ys h y hy
    unfold mapME at h
    simp only [Except.ok.injEq] at h
    subst h; simp at hy
  | cons x xs ih =>
    intro ys h y hy
    unfold mapME at h
    cases hfx : f x with
    | error e => rw [hfx] at h; simp at h
    | ok y1 =>
      rw [hfx] at h
      cases hrest : mapME f xs with
      | error e => rw [hrest] at h; simp at h
      | ok ys2 =>
        rw [hrest] at h
        simp only [Except.ok.injEq] at h
        subst h
        rcases List.mem_cons.mp hy with rfl | hy2
        · exact ⟨x, List.mem_cons_self _ _, hfx⟩
        · obtain ⟨x2, hx2, hfx2⟩ := ih hrest y hy2
          exact ⟨x2, List.mem_cons_of_mem _ hx2, hfx2⟩

theorem mapME_ok_eq_map {α β : Type} {f : α → Except BuildError β} {g : α → β} :
    ∀ {xs : List α} {ys : List β}, mapME f xs = .ok ys →
      (∀ x ∈ xs, ∀ y, f x = .ok y → y = g x) → ys = xs.map g := by
  intro xs
  induction xs with
  | nil =>
    intro ys h hg
    unfold mapME at h
    simp only [Except.ok.injEq] at h
    subst h; rfl
  | cons x xs ih =>
    intro ys h hg
    unfold mapME at h
    cases hfx : f x with
    | error e => rw [hfx] at h; simp at h
    | ok y1 =>
      rw [hfx] at h
      cases hrest : mapME f xs with
      | error e => rw [hrest] at h; simp at h
      | ok ys2 =>
        rw [hrest] at h
        simp only [Except.ok.injEq] at h
        subst h
        have h1 := hg x (List.mem_cons_self _ _) y1 hfx
        have h2 := ih hrest (fun z hz => hg z (List.mem_cons_of_mem _ hz))
        simp [List.map, h1, h2]

theorem mapME_err {α β : Type} {f : α → Except BuildError β} :
    ∀ {xs : List α} {e : BuildError}, mapME f xs = .error e →
      ∃ x ∈ xs, f x = .error e := by
  intro xs
  induction xs with
  | nil => intro e h; unfold mapME at h; simp at h
  | cons x xs ih =>
    intro e h
    unfold mapME at h
    cases hfx : f x with
    | error e0 =>
      rw [hfx] at h
      simp only [Except.error.injEq] at h
      subst h
      exact ⟨x, List.mem_cons_self _ _, hfx⟩
    | ok y =>
      rw [hfx] at h
      cases hrest : mapME f xs with
      | error e0 =>
        rw [hrest] at h
        simp only [Except.error.injEq] at h
        subst h
        obtain ⟨x2, hx2, hfx2⟩ := ih hrest
        exact ⟨x2, List.mem_cons_of_mem _ hx2, hfx2⟩
      | ok ys => rw [hrest] at h; simp at h

theorem getP_lookup {params : Params} {k : String} {v : ℚ}
    (h : getP params k = .ok v) : params.lookup k = some v := by
  unfold getP at h
  cases hl : params.lookup k with
  | none => rw [hl] at h; simp at h
  | some w => rw [hl] at h; simp only [Except.ok.injEq] at h; rw [h]

theorem prodOT_mem {O : List String} {T : List Nat} {o : String} {t : Nat} :
    (o, t) ∈ prodOT O T ↔ o ∈ O ∧ t ∈ T := by
  unfold prodOT
  simp [List.mem_bind, List.mem_map]

/-! Inversion of the staged construction: from a successful build, recover
every intermediate lookup and constraint family. -/

theorem buildContCons_ok {oils : List Oil} {params : Params} {T : List Nat}
    {O : List String} {cs : List Constr}
    (h : buildContCons oils params T O = .ok cs) :
    ∃ s0 balance sf finals vegCap vegCaps nonvegCap nonvegCaps prodDefs minH hMins maxH hMaxs,
      getP params "initial_stock" = .ok s0 ∧
      mapME (fun ot => balanceCon s0 (T.headD 0) T ot.1 ot.2) (prodOT O T) = .ok balance ∧
      getP params "target_final_stock" = .ok sf ∧
      mapME (fun o => finalStockCon sf (T.getLastD 0) o) O = .ok finals ∧
      getP params "max_veg_refine_per_month" = .ok vegCap ∧
      mapME (fun t => capacityCon oils "Veg" vegCap t) T = .ok vegCaps ∧
      getP params "max_nonveg_refine_per_month" = .ok nonvegCap ∧
      mapME (fun t => capacityCon oils "NonVeg" nonvegCap t) T = .ok nonvegCaps ∧
      mapME (fun t => productionCon O t) T = .ok prodDefs ∧
      getP params "min_hardness" = .ok minH ∧
      mapME (fun t => hardnessMinCon oils O minH t) T = .ok hMins ∧
      getP params "max_hardness" = .ok maxH ∧
      mapME (fun t => hardnessMaxCon oils O maxH t) T = .ok hMaxs ∧
      cs = balance ++ finals ++ vegCaps ++ nonvegCaps ++ prodDefs ++ hMins ++ hMaxs := by
  unfold buildContCons at h
  obtain ⟨s0, hs0, h⟩ := except_bind_ok h
  obtain ⟨balance, hbal, h⟩ := except_bind_ok h
  obtain ⟨sf, hsf, h⟩ := except_bind_ok h
  obtain ⟨finals, hfin, h⟩ := except_bind_ok h
  obtain ⟨vegCap, hvc, h⟩ := except_bind_ok h
  obtain ⟨vegCaps, hvcs, h⟩ := except_bind_ok h
  obtain ⟨nonvegCap, hnvc, h⟩ := except_bind_ok h
  obtain ⟨nonvegCaps, hnvcs, h⟩ := except_bind_ok h
  obtain ⟨prodDefs, hpd, h⟩ := except_bind_ok h
  obtain ⟨minH, hmin, h⟩ := except_bind_ok h
  obtain ⟨hMins, hmins, h⟩ := except_bind_ok h
  obtain ⟨maxH, hmax, h⟩ := except_bind_ok h
  obtain ⟨hMaxs, hmaxs, h⟩ := except_bind_ok h
  simp only [Except.ok.injEq] at h
  exact ⟨s0, balance, sf, finals, vegCap, vegCaps, nonvegCap, nonvegCaps, prodDefs,
    minH, hMins, maxH, hMaxs, hs0, hbal, hsf, hfin, hvc, hvcs, hnvc, hnvcs, hpd,
    hmin, hmins, hmax, hmaxs, h.symm⟩

theorem buildIntCons_ok {params : Params} {T : List Nat} {O : List String}
    {cs : List Constr} (h : buildIntCons params T O = .ok cs) :
    ∃ links minU mins maxI maxIngs lv1 lv2,
      mapME (fun ot => linkCon ot.1 ot.2) (prodOT O T) = .ok links ∧
      getP params "min_usage_if_used" = .ok minU ∧
      mapME (fun ot => minUsageCon minU ot.1 ot.2) (prodOT O T) = .ok mins ∧
      getP params "max_ingredients_per_month" = .ok maxI ∧
      mapME (fun t => maxIngredientsCon O maxI t) T = .ok maxIngs ∧
      mapME (fun t => logicCon "VEG1" "OIL3" O t) T = .ok lv1 ∧
      mapME (fun t => logicCon "VEG2" "OIL3" O t) T = .ok lv2 ∧
      cs = links ++ mins ++ maxIngs ++ lv1 ++ lv2 := by
  unfold buildIntCons at h
  obtain ⟨links, hl, h⟩ := except_bind_ok h
  obtain ⟨minU, hmu, h⟩ := except_bind_ok h
  obtain ⟨mins, hm, h⟩ := except_bind_ok h
  obtain ⟨maxI, hmi, h⟩ := except_bind_ok h
  obtain ⟨maxIngs, hmis, h⟩ := except_bind_ok h
  obtain ⟨lv1, hlv1, h⟩ := except_bind_ok h
  obtain ⟨lv2, hlv2, h⟩ := except_bind_ok h
  simp only [Except.ok.injEq] at h
  exact ⟨links, minU, mins, maxI, maxIngs, lv1, lv2, hl, hmu, hm, hmi, hmis,
    hlv1, hlv2, h.symm⟩

theorem buildObjective_ok {prices : PricesDF} {params : Params} {T : List Nat}
    {O : List String} {obj : LinExpr}
    (h : buildObjective prices params T O = .ok obj) :
    ∃ sale buyTerms sc,
      getP params "product_sales_price" = .ok sale ∧
      mapME (fun ot =>
        match prices.loc ot.2 ot.1 with
        | some p => (.ok ((-p, V.Buy ot.1 ot.2)) : Except BuildError (ℚ × V))
        | none => .error (.keyError ot.1)) (prodOT O T) = .ok buyTerms ∧
      getP params "storage_cost_per_ton" = .ok sc ∧
      obj = ⟨T.map (fun t => (sale, V.Produce t)) ++ buyTerms ++
             (prodOT O T).map (fun ot => (-sc, V.Stock ot.1 ot.2)), 0⟩ := by
  unfold buildObjective at h
  obtain ⟨sale, hs, h⟩ := except_bind_ok h
  obtain ⟨buyTerms, hb, h⟩ := except_bind_ok h
  obtain ⟨sc, hsc, h⟩ := except_bind_ok h
  simp only [Except.ok.injEq] at h
  exact ⟨sale, buyTerms, sc, hs, hb, hsc, h.symm⟩

theorem build_ok {oils : List Oil} {prices : PricesDF} {params : Params}
    {flag : Bool} {M : Model} (h : build oils prices params flag = .ok M) :
    ∃ storCap contCons intCons obj,
      getP params "storage_capacity_per_oil" = .ok storCap ∧
      buildContCons oils params prices.months (oils.map (fun x => x.id)) = .ok contCons ∧
      (if flag then buildIntCons params prices.months (oils.map (fun x => x.id))
       else .ok []) = .ok intCons ∧
      buildObjective prices params prices.months (oils.map (fun x => x.id)) = .ok obj ∧
      M = ⟨prices.months, oils.map (fun x => x.id),
           contVarDoms (oils.map (fun x => x.id)) prices.months storCap ++
             (if flag then intVarDoms (oils.map (fun x => x.id)) prices.months else []),
           contCons ++ intCons, obj⟩ := by
  unfold build at h
  obtain ⟨storCap, hsc, h⟩ := except_bind_ok h
  obtain ⟨contCons, hcc, h⟩ := except_bind_ok h
  obtain ⟨intCons, hic, h⟩ := except_bind_ok h
  obtain ⟨obj, hobj, h⟩ := except_bind_ok h
  simp only [Except.ok.injEq] at h
  exact ⟨storCap, contCons, intCons, obj, hsc, hcc, hic, hobj, h.symm⟩

/-! Membership of variable domains in the built model. -/

theorem use_dom_mem {O : List String} {T : List Nat} {storCap : ℚ} {o : String}
    {t : Nat} (ho : o ∈ O) (ht : t ∈ T) :
    (V.Use o t, Dom.nonneg) ∈ contVarDoms O T storCap := by
  unfold contVarDoms
  refine List.mem_append.mpr (Or.inl ?_)
  refine List.mem_bind.mpr ⟨(o, t), prodOT_mem.mpr ⟨ho, ht⟩, ?_⟩
  simp

theorem model_use_nonneg {oils : List Oil} {prices : PricesDF} {params : Params}
    {flag : Bool} {M : Model} {a : V → ℚ} {o : String} {t : Nat}
    (hb : build oils prices params flag = .ok M) (hf : M.feasible a)
    (ho : o ∈ M.O) (ht : t ∈ M.T) : 0 ≤ a (V.Use o t) := by
  obtain ⟨storCap, contCons, intCons, obj, hsc, hcc, hic, hobj, hM⟩ := build_ok hb
  have ho2 : o ∈ oils.map (fun x => x.id) := by rw [hM] at ho; exact ho
  have ht2 : t ∈ prices.months := by rw [hM] at ht; exact ht
  have hmem : (V.Use o t, Dom.nonneg) ∈ M.vars := by
    rw [hM]
    exact List.mem_append.mpr (Or.inl (use_dom_mem ho2 ht2))
  exact hf.1 (V.Use o t, Dom.nonneg) hmem

/-! Small helper lemmas about constructed constraints and list sums. -/

theorem addCon_eq {lhs : LinExpr} {rel : CRel} {rhs : LinExpr} {c : Constr}
    (h : addCon lhs rel rhs = .ok c) : c = ⟨lhs, rel, rhs⟩ := by
  unfold addCon at h
  split at h
  · simp at h
  · simp only [Except.ok.injEq] at h
    exact h.symm

theorem sum_mem_le {l : List ℚ} (hnn : ∀ x ∈ l, 0 ≤ x) {x : ℚ} (hx : x ∈ l) :
    x ≤ l.sum := by
  induction l with
  | nil => simp at hx
  | cons y ys ih =>
    rw [List.sum_cons]
    rcases List.mem_cons.mp hx with rfl | hx2
    · have : 0 ≤ ys.sum :=
        List.sum_nonneg (fun z hz => hnn z (List.mem_cons_of_mem _ hz))
      linarith
    · have h1 : x ≤ ys.sum := ih (fun z hz => hnn z (List.mem_cons_of_mem _ hz)) hx2
      have h2 : 0 ≤ y := hnn y (List.mem_cons_self _ _)
      linarith

theorem sum_zero_of_nonneg {l : List ℚ} (hnn : ∀ x ∈ l, 0 ≤ x)
    (hs : l.sum = 0) : ∀ x ∈ l, x = 0 := by
  intro x hx
  have h1 := sum_mem_le hnn hx
  have h2 := hnn x hx
  linarith [hs ▸ h1]

/-- CLAIM C1.  For every oil o and period t, the built model contains the
equality constraint Stock[o,t] = PrevStock + Buy[o,t] - Use[o,t], where
PrevStock is the initial_stock parameter when t is the first period and
Stock[o,t-1] otherwise; and for every oil the model contains the equality
Stock[o, last period] = target_final_stock.  Hence every feasible assignment
satisfies both boundary conditions exactly. -/
theorem c1_balance_and_final {oils : List Oil} {prices : PricesDF}
    {params : Params} {flag : Bool} {M : Model} {a : V → ℚ} {s0 sf : ℚ}
    (hb : build oils prices params flag = .ok M)
    (hs0 : getP params "initial_stock" = .ok s0)
    (hsf : getP params "target_final_stock" = .ok sf)
    (hf : M.feasible a) :
    (∀ o ∈ M.O, ∀ t ∈ M.T,
        (∃ c ∈ M.cons, balanceCon s0 (M.T.headD 0) M.T o t = .ok c) ∧
        a (V.Stock o t) =
          (if t = M.T.headD 0 then s0 else a (V.Stock o (t - 1))) +
            a (V.Buy o t) - a (V.Use o t)) ∧
    (∀ o ∈ M.O,
        (∃ c ∈ M.cons, finalStockCon sf (M.T.getLastD 0) o = .ok c) ∧
        a (V.Stock o (M.T.getLastD 0)) = sf) := by
  obtain ⟨storCap, contCons, intCons, obj, hscp, hcc, hic, hobj, hM⟩ := build_ok hb
  obtain ⟨s0x, balance, sfx, finals, vegCap, vegCaps, nonvegCap, nonvegCaps,
    prodDefs, minH, hMins, maxH, hMaxs, hs0x, hbal, hsfx, hfin, hvc, hvcs,
    hnvc, hnvcs, hpd, hmin, hmins, hmax, hmaxs, hcs⟩ := buildContCons_ok hcc
  rw [hs0] at hs0x
  injection hs0x with hs0e
  subst hs0e
  rw [hsf] at hsfx
  injection hsfx with hsfe
  subst hsfe
  subst hM
  dsimp only at *
  constructor
  · intro o ho t ht
    obtain ⟨c, hcmem, hcok⟩ := mapME_ok_forall hbal (o, t) (prodOT_mem.mpr ⟨ho, ht⟩)
    have hcm : c ∈ contCons ++ intCons := by
      rw [hcs]
      exact List.mem_append_left _ (List.mem_append_left _ (List.mem_append_left _
        (List.mem_append_left _ (List.mem_append_left _ (List.mem_append_left _
          (List.mem_append_left _ hcmem))))))
    · constructor
      · exact ⟨c, hcm, hcok⟩
      · have hholds : c.holds a := hf.2 c hcm
        unfold balanceCon at hcok
        by_cases ht0 : t = prices.months.headD 0
        · rw [if_pos ht0] at hcok
          have hce := addCon_eq hcok
          subst hce
          rw [if_pos ht0]
          simp only [Constr.holds, LinExpr.eval, List.map_cons, List.map_nil,
            List.sum_cons, List.sum_nil] at hholds
          linarith
        · rw [if_neg ht0] at hcok
          rw [if_neg ht0]
          by_cases htm : (t - 1) ∈ prices.months
          · rw [if_pos htm] at hcok
            have hce := addCon_eq hcok
            subst hce
            simp only [Constr.holds, LinExpr.eval, List.map_cons, List.map_nil,
              List.sum_cons, List.sum_nil] at hholds
            linarith
          · rw [if_neg htm] at hcok
            simp at hcok
  · intro o ho
    obtain ⟨c, hcmem, hcok⟩ := mapME_ok_forall hfin o ho
    have hcm : c ∈ contCons ++ intCons := by
      rw [hcs]
      exact List.mem_append_left _ (List.mem_append_left _ (List.mem_append_left _
        (List.mem_append_left _ (List.mem_append_left _ (List.mem_append_left _
          (List.mem_append_right _ hcmem))))))
    constructor
    · exact ⟨c, hcm, hcok⟩
    · have hholds : c.holds a := hf.2 c hcm
      unfold finalStockCon at hcok
      have hce := addCon_eq hcok
      subst hce
      simp only [Constr.holds, LinExpr.eval, List.map_cons, List.map_nil,
        List.sum_cons, List.sum_nil] at hholds
      linarith

/-- Witness for C1: at the reference data and the store-everything assignment,
the final-stock boundary condition evaluates to the target 500. -/
theorem c1_witness :
    refModelC.feasible zeroAssign ∧
    zeroAssign (V.Stock "VEG1" (refModelC.T.getLastD 0)) = 500 := by
  refine ⟨refC_feas, ?_⟩
  exact ((c1_balance_and_final refC_ok (by rfl) (by rfl) refC_feas).2 "VEG1" (by decide)).2

/-- The weighted blend hardness of period t: sum over the oil set of
hardness[o] * Use[o,t], exactly the sum in model.py lines 70 and 75. -/
def totalHardness (oils : List Oil) (O : List String) (t : Nat) (a : V → ℚ) : ℚ :=
  (O.map (fun o => hardnessOf oils o * a (V.Use o t))).sum

/-- CLAIM C2.  For every period the built model constrains
min_hardness * Produce[t] <= sum of hardness[o] * Use[o,t] <= max_hardness *
Produce[t]; hence in every feasible assignment, if Produce[t] > 0 the
weighted-average hardness lies in [min_hardness, max_hardness], and if
Produce[t] = 0 both hardness constraints degenerate to 0 <= 0 because the
production-definition constraint and non-negativity force every Use[o,t]
to 0. -/
theorem c2_hardness {oils : List Oil} {prices : PricesDF} {params : Params}
    {flag : Bool} {M : Model} {a : V → ℚ} {minH maxH : ℚ}
    (hb : build oils prices params flag = .ok M)
    (hmin : getP params "min_hardness" = .ok minH)
    (hmax : getP params "max_hardness" = .ok maxH)
    (hf : M.feasible a) :
    ∀ t ∈ M.T,
      (minH * a (V.Produce t) ≤ totalHardness oils M.O t a ∧
       totalHardness oils M.O t a ≤ maxH * a (V.Produce t)) ∧
      (0 < a (V.Produce t) →
        minH ≤ totalHardness oils M.O t a / a (V.Produce t) ∧
        totalHardness oils M.O t a / a (V.Produce t) ≤ maxH) ∧
      (a (V.Produce t) = 0 →
        (∀ o ∈ M.O, a (V.Use o t) = 0) ∧
        totalHardness oils M.O t a = 0 ∧
        minH * a (V.Produce t) = 0 ∧ maxH * a (V.Produce t) = 0) := by
  have husenn : ∀ o ∈ M.O, ∀ t ∈ M.T, 0 ≤ a (V.Use o t) :=
    fun o ho t ht => model_use_nonneg hb hf ho ht
  obtain ⟨storCap, contCons, intCons, obj, hscp, hcc, hic, hobj, hM⟩ := build_ok hb
  obtain ⟨s0x, balance, sfx, finals, vegCap, vegCaps, nonvegCap, nonvegCaps,
    prodDefs, minHx, hMins, maxHx, hMaxs, hs0x, hbal, hsfx, hfin, hvc, hvcs,
    hnvc, hnvcs, hpd, hminx, hmins, hmaxx, hmaxs, hcs⟩ := buildContCons_ok hcc
  rw [hmin] at hminx
  injection hminx with hmine
  subst hmine
  rw [hmax] at hmaxx
  injection hmaxx with hmaxe
  subst hmaxe
  subst hM
  dsimp only at *
  intro t ht
  have hcomp : ∀ O2 : List String,
      (List.map (fun p => p.1 * a p.2)
        (List.map (fun o => (hardnessOf oils o, V.Use o t)) O2)).sum =
        totalHardness oils O2 t a := by
    intro O2
    unfold totalHardness
    rw [List.map_map]
    rfl
  -- the two hardness constraints of period t
  obtain ⟨cmin, hcminmem, hcminok⟩ := mapME_ok_forall hmins t ht
  obtain ⟨cmax, hcmaxmem, hcmaxok⟩ := mapME_ok_forall hmaxs t ht
  have hcminm : cmin ∈ contCons ++ intCons := by
    rw [hcs]
    exact List.mem_append_left _ (List.mem_append_left _ (List.mem_append_right _ hcminmem))
  have hcmaxm : cmax ∈ contCons ++ intCons := by
    rw [hcs]
    exact List.mem_append_left _ (List.mem_append_right _ hcmaxmem)
  have hminholds : cmin.holds a := hf.2 cmin hcminm
  have hmaxholds : cmax.holds a := hf.2 cmax hcmaxm
  unfold hardnessMinCon at hcminok
  unfold hardnessMaxCon at hcmaxok
  have hcmine := addCon_eq hcminok
  have hcmaxe := addCon_eq hcmaxok
  subst hcmine
  subst hcmaxe
  simp only [Constr.holds, LinExpr.eval, List.map_cons, List.map_nil,
    List.sum_cons, List.sum_nil] at hminholds hmaxholds
  rw [hcomp] at hminholds hmaxholds
  have hlow : minH * a (V.Produce t) ≤
      totalHardness oils (oils.map (fun x => x.id)) t a := by linarith
  have hhigh : totalHardness oils (oils.map (fun x => x.id)) t a ≤
      maxH * a (V.Produce t) := by linarith
  refine ⟨⟨hlow, hhigh⟩, ?_, ?_⟩
  · intro hP
    constructor
    · exact (le_div_iff hP).mpr hlow
    · exact (div_le_iff hP).mpr hhigh
  · intro hP0
    -- the production-definition constraint of period t
    obtain ⟨cp, hcpmem, hcpok⟩ := mapME_ok_forall hpd t ht
    have hcpm : cp ∈ contCons ++ intCons := by
      rw [hcs]
      exact List.mem_append_left _ (List.mem_append_left _ (List.mem_append_left _
        (List.mem_append_right _ hcpmem)))
    have hcpholds : cp.holds a := hf.2 cp hcpm
    unfold productionCon at hcpok
    have hcpe := addCon_eq hcpok
    subst hcpe
    simp only [Constr.holds, LinExpr.eval, List.map_cons, List.map_nil,
      List.sum_cons, List.sum_nil] at hcpholds
    have hmm : (List.map (fun p => p.1 * a p.2)
        (List.map (fun o => ((1 : ℚ), V.Use o t)) (oils.map (fun x => x.id)))).sum =
        ((oils.map (fun x => x.id)).map (fun o => (1 : ℚ) * a (V.Use o t))).sum := by
      rw [List.map_map]
      rfl
    rw [hmm] at hcpholds
    have hsum : ((oils.map (fun x => x.id)).map (fun o => (1 : ℚ) * a (V.Use o t))).sum = 0 := by
      rw [hP0] at hcpholds
      linarith
    have hallz : ∀ o ∈ oils.map (fun x => x.id), a (V.Use o t) = 0 := by
      intro o ho
      have hx := sum_zero_of_nonneg
        (l := (oils.map (fun x => x.id)).map (fun o => (1 : ℚ) * a (V.Use o t)))
        (by
          intro x hx
          obtain ⟨o2, ho2, hox⟩ := List.mem_map.mp hx
          subst hox
          have := husenn o2 ho2 t ht
          linarith)
        hsum
        (1 * a (V.Use o t))
        (List.mem_map.mpr ⟨o, ho, rfl⟩)
      linarith
    have hth : totalHardness oils (oils.map (fun x => x.id)) t a = 0 := by
      unfold totalHardness
      apply List.sum_eq_zero
      intro x hx
      obtain ⟨o2, ho2, hox⟩ := List.mem_map.mp hx
      subst hox
      rw [hallz o2 ho2, mul_zero]
    exact ⟨hallz, hth, by rw [hP0, mul_zero], by rw [hP0, mul_zero]⟩

/-- Witness for C2 at the reference data, period 1 and the store-everything
assignment: Produce is 0 there, the lower hardness constraint holds and the
weighted hardness degenerates to 0. -/
theorem c2_witness :
    refModelC.feasible zeroAssign ∧
    3 * zeroAssign (V.Produce 1) ≤ totalHardness load_oils_data refModelC.O 1 zeroAssign ∧
    totalHardness load_oils_data refModelC.O 1 zeroAssign = 0 := by
  have h := c2_hardness refC_ok (by rfl) (by rfl) refC_feas 1 (by decide)
  exact ⟨refC_feas, h.1.1, (h.2.2 (by decide)).2.1⟩

theorem capacity_bound {a : V → ℚ} {vs : List (ℚ × V)} {cap : ℚ}
    (hc : Constr.holds ⟨⟨vs, 0⟩, .le, ⟨[], cap⟩⟩ a)
    (hnn : ∀ p ∈ vs, 0 ≤ p.1 * a p.2) {p : ℚ × V} (hp : p ∈ vs) :
    p.1 * a p.2 ≤ cap := by
  simp only [Constr.holds, LinExpr.eval, List.map_nil, List.sum_nil] at hc
  have h1 := sum_mem_le (l := vs.map (fun q => q.1 * a q.2))
    (by
      intro x hx
      obtain ⟨q, hq, hqx⟩ := List.mem_map.mp hx
      subst hqx
      exact hnn q hq)
    (List.mem_map.mpr ⟨p, hp, rfl⟩)
  linarith

/-- In any feasible assignment of the reference discrete model, every Use
variable is bounded by the capacity of the category of its oil: 200 for the
vegetable oils and 250 for the others. -/
theorem refD_use_le_cap {b : V → ℚ} (hfb : refModelD.feasible b) {t : Nat}
    (ht : t ∈ load_market_prices.months) :
    b (V.Use "VEG1" t) ≤ 200 ∧ b (V.Use "VEG2" t) ≤ 200 ∧
    b (V.Use "OIL1" t) ≤ 250 ∧ b (V.Use "OIL2" t) ≤ 250 ∧
    b (V.Use "OIL3" t) ≤ 250 := by
  obtain ⟨storCap, contCons, intCons, obj, hscp, hcc, hic, hobj, hM⟩ := build_ok refD_ok
  obtain ⟨s0x, balance, sfx, finals, vegCap, vegCaps, nonvegCap, nonvegCaps,
    prodDefs, minHx, hMins, maxHx, hMaxs, hs0x, hbal, hsfx, hfin, hvc, hvcs,
    hnvc, hnvcs, hpd, hminx, hmins, hmaxx, hmaxs, hcs⟩ := buildContCons_ok hcc
  rw [show getP get_parameters "max_veg_refine_per_month" = Except.ok 200 from rfl] at hvc
  injection hvc with hvce
  subst hvce
  rw [show getP get_parameters "max_nonveg_refine_per_month" = Except.ok 250 from rfl] at hnvc
  injection hnvc with hnvce
  subst hnvce
  have husenn : ∀ o2 : String, o2 ∈ load_oils_data.map (fun x => x.id) →
      0 ≤ b (V.Use o2 t) := by
    intro o2 ho2
    have hmem : (V.Use o2 t, Dom.nonneg) ∈ refModelD.vars := by
      rw [hM]
      exact List.mem_append_left _ (use_dom_mem ho2 ht)
    exact hfb.1 (V.Use o2 t, Dom.nonneg) hmem
  -- the Veg capacity constraint of period t
  obtain ⟨cv, hcvmem, hcvok⟩ := mapME_ok_forall hvcs t ht
  have hcvm : cv ∈ refModelD.cons := by
    rw [hM, hcs]
    exact List.mem_append_left _ (List.mem_append_left _ (List.mem_append_left _
      (List.mem_append_left _ (List.mem_append_left _ (List.mem_append_right _ hcvmem)))))
  have hcvholds : cv.holds b := hfb.2 cv hcvm
  rw [show capacityCon load_oils_data "Veg" 200 t =
      Except.ok ⟨⟨[(1, V.Use "VEG1" t), (1, V.Use "VEG2" t)], 0⟩, .le, ⟨[], 200⟩⟩
    from rfl] at hcvok
  injection hcvok with hcve
  rw [← hcve] at hcvholds
  -- the NonVeg capacity constraint of period t
  obtain ⟨cn, hcnmem, hcnok⟩ := mapME_ok_forall hnvcs t ht
  have hcnm : cn ∈ refModelD.cons := by
    rw [hM, hcs]
    exact List.mem_append_left _ (List.mem_append_left _ (List.mem_append_left _
      (List.mem_append_left _ (List.mem_append_right _ hcnmem))))
  have hcnholds : cn.holds b := hfb.2 cn hcnm
  rw [show capacityCon load_oils_data "NonVeg" 250 t =
      Except.ok ⟨⟨[(1, V.Use "OIL1" t), (1, V.Use "OIL2" t), (1, V.Use "OIL3" t)], 0⟩,
        .le, ⟨[], 250⟩⟩ from rfl] at hcnok
  injection hcnok with hcne
  rw [← hcne] at hcnholds
  have hnnv : ∀ p ∈ [((1 : ℚ), V.Use "VEG1" t), ((1 : ℚ), V.Use "VEG2" t)],
      0 ≤ p.1 * b p.2 := by
    intro p hp
    rcases List.mem_cons.mp hp with rfl | hp2
    · have := husenn "VEG1" (by decide); simpa using this
    rcases List.mem_cons.mp hp2 with rfl | hp3
    · have := husenn "VEG2" (by decide); simpa using this
    · simp at hp3
  have hnnn : ∀ p ∈ [((1 : ℚ), V.Use "OIL1" t), ((1 : ℚ), V.Use "OIL2" t),
      ((1 : ℚ), V.Use "OIL3" t)], 0 ≤ p.1 * b p.2 := by
    intro p hp
    rcases List.mem_cons.mp hp with rfl | hp2
    · have := husenn "OIL1" (by decide); simpa using this
    rcases List.mem_cons.mp hp2 with rfl | hp3
    · have := husenn "OIL2" (by decide); simpa using this
    rcases List.mem_cons.mp hp3 with rfl | hp4
    · have := husenn "OIL3" (by decide); simpa using this
    · simp at hp4
  have h1 := capacity_bound hcvholds hnnv (List.mem_cons_self _ _)
  have h2 := capacity_bound hcvholds hnnv
    (List.mem_cons_of_mem _ (List.mem_cons_self _ _))
  have h3 := capacity_bound hcnholds hnnn (List.mem_cons_self _ _)
  have h4 := capacity_bound hcnholds hnnn
    (List.mem_cons_of_mem _ (List.mem_cons_self _ _))
  have h5 := capacity_bound hcnholds hnnn
    (List.mem_cons_of_mem _ (List.mem_cons_of_mem _ (List.mem_cons_self _ _)))
  simp only at h1 h2 h3 h4 h5
  refine ⟨by linarith, by linarith, by linarith, by linarith, by linarith⟩

/-- CLAIM C3.  In discrete mode, every feasible assignment satisfies
IsUsed[o,t] = 0 -> Use[o,t] = 0 and IsUsed[o,t] = 1 -> Use[o,t] >=
min_usage_if_used, via the Big-M linking constraint Use <= 250 * IsUsed and
the minimum-usage constraint; and the hardcoded Big-M constant 250 is at
least the category refining caps of the reference parameters (200 and 250),
so in the reference discrete model every feasible Use value is at most
Big-M and no feasible solution is cut off by the linking constraint. -/
theorem c3_discrete_link {oils : List Oil} {prices : PricesDF} {params : Params}
    {M : Model} {a : V → ℚ} {minU : ℚ}
    (hb : build oils prices params true = .ok M)
    (hminU : getP params "min_usage_if_used" = .ok minU)
    (hf : M.feasible a) :
    (∀ o ∈ M.O, ∀ t ∈ M.T,
        a (V.Use o t) ≤ bigM * a (V.IsUsed o t) ∧
        (a (V.IsUsed o t) = 0 → a (V.Use o t) = 0) ∧
        (a (V.IsUsed o t) = 1 → minU ≤ a (V.Use o t))) ∧
    (getP get_parameters "max_veg_refine_per_month" = .ok 200 ∧
     getP get_parameters "max_nonveg_refine_per_month" = .ok 250 ∧
     (200 : ℚ) ≤ bigM ∧ (250 : ℚ) ≤ bigM) ∧
    (∀ b, refModelD.feasible b → ∀ o ∈ refModelD.O, ∀ t ∈ refModelD.T,
        b (V.Use o t) ≤ bigM) := by
  refine ⟨?_, ⟨rfl, rfl, by norm_num [bigM], by norm_num [bigM]⟩, ?_⟩
  · intro o ho t ht
    have hnn : 0 ≤ a (V.Use o t) := model_use_nonneg hb hf ho ht
    obtain ⟨storCap, contCons, intCons, obj, hscp, hcc, hic, hobj, hM⟩ := build_ok hb
    rw [if_pos rfl] at hic
    obtain ⟨links, minUx, mins, maxI, maxIngs, lv1, lv2, hlinks, hmux, hminsI,
      hmaxI, hmaxIngs, hlv1, hlv2, hics⟩ := buildIntCons_ok hic
    rw [hminU] at hmux
    injection hmux with hmue
    subst hmue
    rw [hM] at ho ht
    dsimp only at ho ht
    obtain ⟨cl, hclmem, hclok⟩ := mapME_ok_forall hlinks (o, t) (prodOT_mem.mpr ⟨ho, ht⟩)
    have hclm : cl ∈ M.cons := by
      rw [hM, hics]
      exact List.mem_append_right _ (List.mem_append_left _ (List.mem_append_left _
        (List.mem_append_left _ (List.mem_append_left _ hclmem))))
    have hclholds : cl.holds a := hf.2 cl hclm
    rw [show linkCon (o, t).1 (o, t).2 =
        Except.ok ⟨⟨[(1, V.Use o t)], 0⟩, .le, ⟨[(bigM, V.IsUsed o t)], 0⟩⟩ from rfl] at hclok
    injection hclok with hcle
    rw [← hcle] at hclholds
    simp only [Constr.holds, LinExpr.eval, List.map_cons, List.map_nil,
      List.sum_cons, List.sum_nil] at hclholds
    obtain ⟨cm, hcmmem, hcmok⟩ := mapME_ok_forall hminsI (o, t) (prodOT_mem.mpr ⟨ho, ht⟩)
    have hcmm : cm ∈ M.cons := by
      rw [hM, hics]
      exact List.mem_append_right _ (List.mem_append_left _ (List.mem_append_left _
        (List.mem_append_left _ (List.mem_append_right _ hcmmem))))
    have hcmholds : cm.holds a := hf.2 cm hcmm
    rw [show minUsageCon minU (o, t).1 (o, t).2 =
        Except.ok ⟨⟨[(1, V.Use o t)], 0⟩, .ge, ⟨[(minU, V.IsUsed o t)], 0⟩⟩ from rfl] at hcmok
    injection hcmok with hcme
    rw [← hcme] at hcmholds
    simp only [Constr.holds, LinExpr.eval, List.map_cons, List.map_nil,
      List.sum_cons, List.sum_nil] at hcmholds
    refine ⟨by linarith, ?_, ?_⟩
    · intro h0
      rw [h0] at hclholds
      simp only [mul_zero] at hclholds
      have : a (V.Use o t) ≤ 0 := by linarith
      linarith [le_antisymm this hnn]
    · intro h1
      rw [h1] at hcmholds
      simp only [mul_one] at hcmholds
      linarith
  · intro b hfb o ho t ht
    have ht2 : t ∈ load_market_prices.months := by
      have he : refModelD.T = load_market_prices.months := by rfl
      rwa [he] at ht
    have hcaps := refD_use_le_cap hfb ht2
    have ho2 : o ∈ ["VEG1", "VEG2", "OIL1", "OIL2", "OIL3"] := by
      have he : refModelD.O = ["VEG1", "VEG2", "OIL1", "OIL2", "OIL3"] := by rfl
      rwa [he] at ho
    unfold bigM
    rcases List.mem_cons.mp ho2 with rfl | ho2
    · linarith [hcaps.1]
    rcases List.mem_cons.mp ho2 with rfl | ho2
    · linarith [hcaps.2.1]
    rcases List.mem_cons.mp ho2 with rfl | ho2
    · linarith [hcaps.2.2.1]
    rcases List.mem_cons.mp ho2 with rfl | ho2
    · linarith [hcaps.2.2.2.1]
    rcases List.mem_cons.mp ho2 with rfl | ho2
    · linarith [hcaps.2.2.2.2]
    · simp at ho2

/-- Witness for C3: at the reference discrete model and the store-everything
assignment, IsUsed[VEG1,1] is 0 and the linking constraint forces
Use[VEG1,1] to 0. -/
theorem c3_witness :
    refModelD.feasible zeroAssign ∧ zeroAssign (V.Use "VEG1" 1) = 0 := by
  refine ⟨refD_feas, ?_⟩
  have h := (c3_discrete_link refD_ok (by rfl) refD_feas).1 "VEG1" (by decide) 1 (by decide)
  exact h.2.1 (by decide)

/-- Profit as the spec words it (spec section 4.3): sum over periods of
Produce[t] times sale price, minus sum over (oil, period) of Buy[o,t] times
price[o,t], minus sum over (oil, period) of Stock[o,t] times storage cost
per ton.  Written from the words of the spec, to be compared with the
objective the builder assembles. -/
def specProfit (T : List Nat) (O : List String) (priceOf : String → Nat → ℚ)
    (sp sc : ℚ) (a : V → ℚ) : ℚ :=
  (T.map (fun t => a (V.Produce t) * sp)).sum -
    ((prodOT O T).map (fun ot => a (V.Buy ot.1 ot.2) * priceOf ot.1 ot.2)).sum -
    ((prodOT O T).map (fun ot => a (V.Stock ot.1 ot.2) * sc)).sum

theorem sum_produce_terms (l : List Nat) (sp : ℚ) (a : V → ℚ) :
    (l.map (fun t => sp * a (V.Produce t))).sum =
      (l.map (fun t => a (V.Produce t) * sp)).sum := by
  induction l with
  | nil => rfl
  | cons x xs ih =>
    simp only [List.map_cons, List.sum_cons, ih]
    ring

theorem sum_buy_terms (l : List (String × Nat)) (price : String → Nat → ℚ)
    (a : V → ℚ) :
    (l.map (fun ot => -price ot.1 ot.2 * a (V.Buy ot.1 ot.2))).sum =
      -(l.map (fun ot => a (V.Buy ot.1 ot.2) * price ot.1 ot.2)).sum := by
  induction l with
  | nil => simp
  | cons x xs ih =>
    simp only [List.map_cons, List.sum_cons, ih]
    ring

theorem sum_stock_terms (l : List (String × Nat)) (sc : ℚ) (a : V → ℚ) :
    (l.map (fun ot => -sc * a (V.Stock ot.1 ot.2))).sum =
      -(l.map (fun ot => a (V.Stock ot.1 ot.2) * sc)).sum := by
  induction l with
  | nil => simp
  | cons x xs ih =>
    simp only [List.map_cons, List.sum_cons, ih]
    ring

/-- CLAIM C4.  The single maximized objective of the built model equals
exactly (sum over periods of Produce[t] * product_sales_price) minus (sum
over oil,period of Buy[o,t] * price[o,t]) minus (sum over oil,period of
Stock[o,t] * storage_cost_per_ton), with no other terms, in both continuous
and discrete mode. -/
theorem c4_objective {oils : List Oil} {prices : PricesDF} {params : Params}
    {flag : Bool} {M : Model} {sp sc : ℚ}
    (hb : build oils prices params flag = .ok M)
    (hsp : getP params "product_sales_price" = .ok sp)
    (hsc : getP params "storage_cost_per_ton" = .ok sc)
    (a : V → ℚ) :
    M.objValue a =
      specProfit M.T M.O (fun o t => (prices.loc t o).getD 0) sp sc a := by
  obtain ⟨storCap, contCons, intCons, obj, hscp, hcc, hic, hobj, hM⟩ := build_ok hb
  obtain ⟨sale, buyTerms, sc2, hsale, hbt, hsc2, hoe⟩ := buildObjective_ok hobj
  rw [hsp] at hsale
  injection hsale with hsalee
  subst hsalee
  rw [hsc] at hsc2
  injection hsc2 with hsce
  subst hsce
  have hbte : buyTerms = (prodOT (oils.map (fun x => x.id)) prices.months).map
      (fun ot => (-(prices.loc ot.2 ot.1).getD 0, V.Buy ot.1 ot.2)) := by
    apply mapME_ok_eq_map hbt
    intro ot hot y hy
    cases hloc : prices.loc ot.2 ot.1 with
    | none => rw [hloc] at hy; simp at hy
    | some p =>
      rw [hloc] at hy
      simp only [Except.ok.injEq] at hy
      rw [← hy]
      simp [hloc]
  subst hM
  subst hoe
  subst hbte
  unfold Model.objValue specProfit
  dsimp only
  simp only [LinExpr.eval, List.map_append, List.sum_append, List.map_map,
    Function.comp_def]
  rw [sum_produce_terms, sum_stock_terms,
    sum_buy_terms (prodOT (oils.map (fun x => x.id)) prices.months)
      (fun o t => (prices.loc t o).getD 0) a]
  ring

/-- Witness for C4: at the reference continuous model and the
store-everything assignment, the objective evaluates to the spec profit and
both equal -75000 (storage cost of 500 tons of 5 oils for 6 months). -/
theorem c4_witness :
    refModelC.objValue zeroAssign =
      specProfit refModelC.T refModelC.O
        (fun o t => (load_market_prices.loc t o).getD 0) 150 5 zeroAssign ∧
    refModelC.objValue zeroAssign = -75000 := by
  exact ⟨c4_objective refC_ok (by rfl) (by rfl) zeroAssign, by decide⟩

/-- CLAIM C5.  For identical reference data, the discrete-mode model has the
same index sets and the same objective as the continuous-mode model and its
variables and constraints extend those of the continuous model by the
discrete ones, so every feasible assignment of the discrete model is
feasible for the continuous model; hence any optimum of the discrete model
is at most any optimum of the continuous model. -/
theorem c5_relaxation {oils : List Oil} {prices : PricesDF} {params : Params}
    {Mc Md : Model}
    (hd : build oils prices params true = .ok Md)
    (hc : build oils prices params false = .ok Mc) :
    (Md.T = Mc.T ∧ Md.O = Mc.O ∧ Md.objective = Mc.objective) ∧
    (∃ extraV, Md.vars = Mc.vars ++ extraV) ∧
    (∃ extraC, Md.cons = Mc.cons ++ extraC) ∧
    (∀ a, Md.feasible a → Mc.feasible a) ∧
    (∀ ad ac, Md.optimal ad → Mc.optimal ac →
      Md.objValue ad ≤ Mc.objValue ac) := by
  obtain ⟨sD, ccD, icD, objD, hsD, hccD, hicD, hobjD, hMD⟩ := build_ok hd
  obtain ⟨sC, ccC, icC, objC, hsC, hccC, hicC, hobjC, hMC⟩ := build_ok hc
  rw [hsD] at hsC
  injection hsC with hse
  subst hse
  rw [hccD] at hccC
  injection hccC with hcce
  subst hcce
  rw [hobjD] at hobjC
  injection hobjC with hobje
  subst hobje
  rw [if_pos rfl] at hicD
  rw [if_neg (by simp)] at hicC
  injection hicC with hice
  subst hice
  subst hMD
  subst hMC
  dsimp only
  rw [if_pos rfl, if_neg (by simp)]
  simp only [List.append_nil]
  have hfeas : ∀ a,
      Model.feasible ⟨prices.months, oils.map (fun x => x.id),
        contVarDoms (oils.map (fun x => x.id)) prices.months sD ++
          intVarDoms (oils.map (fun x => x.id)) prices.months,
        ccD ++ icD, objD⟩ a →
      Model.feasible ⟨prices.months, oils.map (fun x => x.id),
        contVarDoms (oils.map (fun x => x.id)) prices.months sD,
        ccD, objD⟩ a := by
    intro a hfd
    constructor
    · intro vd hvd
      exact hfd.1 vd (List.mem_append_left _ hvd)
    · intro c hcm
      exact hfd.2 c (List.mem_append_left _ hcm)
  refine ⟨⟨by trivial, by trivial, by trivial⟩, ⟨_, rfl⟩, ⟨_, rfl⟩, hfeas, ?_⟩
  intro ad ac had hac
  exact hac.2 ad (hfeas ad had.1)

/-- Witness for C5 at the reference data: the discrete and continuous
reference models share the objective, and feasibility transfers from the
discrete model to the continuous one at the store-everything assignment. -/
theorem c5_witness :
    refModelD.objective = refModelC.objective ∧ refModelC.feasible zeroAssign := by
  have h := c5_relaxation refD_ok refC_ok
  exact ⟨h.1.2.2, h.2.2.2.1 zeroAssign refD_feas⟩

/-- An oil catalog like the reference one but without the id VEG1 (the Veg
category is still inhabited by VEG2). -/
def oilsNoVeg1 : List Oil :=
  [⟨"VEG2", "Veg", 61/10⟩,
   ⟨"OIL1", "NonVeg", 2⟩,
   ⟨"OIL2", "NonVeg", 42/10⟩,
   ⟨"OIL3", "NonVeg", 5⟩]

/-- The continuous-mode model built from the catalog without VEG1. -/
def modelNoVeg1 : Model :=
  ((build oilsNoVeg1 load_market_prices get_parameters false).toOption).getD
    ⟨[], [], [], [], ⟨[], 0⟩⟩

/-- CLAIM C10 (implicit).  In discrete mode the builder indexes IsUsed at
the literal ids VEG1, VEG2 and OIL3 for every period, so a successful
discrete build (with at least one period) requires all three ids in the
catalog; a catalog lacking VEG1 raises a KeyError in discrete mode while
the continuous build of the same catalog succeeds. -/
theorem c10_literal_ids :
    (∀ (oils : List Oil) (prices : PricesDF) (params : Params) (M : Model),
        build oils prices params true = .ok M → prices.months ≠ [] →
        "VEG1" ∈ M.O ∧ "VEG2" ∈ M.O ∧ "OIL3" ∈ M.O) ∧
    build oilsNoVeg1 load_market_prices get_parameters false = .ok modelNoVeg1 ∧
    build oilsNoVeg1 load_market_prices get_parameters true =
      .error (.keyError "VEG1") := by
  refine ⟨?_, by rfl, by rfl⟩
  intro oils prices params M hb hT
  obtain ⟨storCap, contCons, intCons, obj, hscp, hcc, hic, hobj, hM⟩ := build_ok hb
  rw [if_pos rfl] at hic
  obtain ⟨links, minUx, mins, maxI, maxIngs, lv1, lv2, hlinks, hmux, hminsI,
    hmaxI, hmaxIngs, hlv1, hlv2, hics⟩ := buildIntCons_ok hic
  obtain ⟨t, ht⟩ := List.exists_mem_of_ne_nil _ hT
  obtain ⟨c1, hc1mem, hc1ok⟩ := mapME_ok_forall hlv1 t ht
  obtain ⟨c2, hc2mem, hc2ok⟩ := mapME_ok_forall hlv2 t ht
  unfold logicCon at hc1ok hc2ok
  have hveg1 : "VEG1" ∈ oils.map (fun x => x.id) := by
    by_contra hn
    rw [if_neg hn] at hc1ok
    simp at hc1ok
  rw [if_pos hveg1] at hc1ok
  have hoil3 : "OIL3" ∈ oils.map (fun x => x.id) := by
    by_contra hn
    rw [if_neg hn] at hc1ok
    simp at hc1ok
  have hveg2 : "VEG2" ∈ oils.map (fun x => x.id) := by
    by_contra hn
    rw [if_neg hn] at hc2ok
    simp at hc2ok
  rw [hM]
  exact ⟨hveg1, hveg2, hoil3⟩

/-- Witness for C10: the reference discrete build succeeds and its oil set
indeed contains the three hardcoded ids. -/
theorem c10_witness :
    build load_oils_data load_market_prices get_parameters true = .ok refModelD ∧
    ("VEG1" ∈ refModelD.O ∧ "VEG2" ∈ refModelD.O ∧ "OIL3" ∈ refModelD.O) := by
  exact ⟨refD_ok, c10_literal_ids.1 load_oils_data load_market_prices
    get_parameters refModelD refD_ok (by decide)⟩

/-- An oil catalog whose NonVeg category has no member oils. -/
def oilsVegOnly : List Oil :=
  [⟨"VEG1", "Veg", 88/10⟩,
   ⟨"VEG2", "Veg", 61/10⟩]

/-- An oil catalog whose Veg category has no member oils. -/
def oilsNonVegOnly : List Oil :=
  [⟨"OIL1", "NonVeg", 2⟩,
   ⟨"OIL2", "NonVeg", 42/10⟩,
   ⟨"OIL3", "NonVeg", 5⟩]

/-- Counterexample to C8 as stated: for a catalog in which the NonVeg
category has no member oils, the build does not succeed with a vacuous
capacity constraint; the capacity rule degenerates to a plain Python bool
and Pyomo rejects it, so the build raises an error. -/
theorem c8_counterexample :
    build oilsVegOnly load_market_prices get_parameters false =
      .error .trivialBool := by
  rfl

/-- CLAIM C8 (amended).  For an oil catalog in which some category has no
member oils, the capacity rule sums over an empty index set, the comparison
collapses to a plain Python bool, and Pyomo rejects the rule ("resolved to
a trivial Boolean"): building fails with that error, in both modes, instead
of emitting a vacuous 0 <= cap constraint; with both categories inhabited
(the reference catalog) the build succeeds. -/
theorem c8_amended :
    build oilsVegOnly load_market_prices get_parameters false =
      .error .trivialBool ∧
    build oilsVegOnly load_market_prices get_parameters true =
      .error .trivialBool ∧
    build oilsNonVegOnly load_market_prices get_parameters false =
      .error .trivialBool ∧
    build oilsNonVegOnly load_market_prices get_parameters true =
      .error .trivialBool ∧
    build load_oils_data load_market_prices get_parameters false = .ok refModelC := by
  exact ⟨by rfl, by rfl, by rfl, by rfl, refC_ok⟩

/-- The wrapper state right after `build` on the reference data:
`result_data` is still the empty initial value (model.py line 10). -/
def refWrapper : Wrapper := ⟨refModelC, []⟩

/-- Counterexample to C9 as stated: result extraction is not free of side
effects on other state; it assigns the extracted records to the
`result_data` attribute of the wrapper, so the wrapper object changes. -/
theorem c9_counterexample : (solveStep refWrapper zeroAssign).1 ≠ refWrapper := by
  decide

/-- CLAIM C9 (amended).  The extraction step is a deterministic function of
the solution values and the model index sets: it produces exactly one
record {month, oil, buy, use, stock} per (oil, period) pair, ordered by
period then oil, with the record fields read from the solution; it leaves
the model object unchanged, but it does mutate the wrapper by storing the
sequence in its result_data attribute. -/
theorem c9_amended (M : Model) (sol : V → ℚ) (w : Wrapper) :
    (solveStep w sol).1.model = w.model ∧
    (solveStep w sol).2 = extractResults w.model sol ∧
    (solveStep w sol).1.result_data = extractResults w.model sol ∧
    (extractResults M sol).map (fun r => (r.month, r.oil)) =
      M.T.bind (fun t => M.O.map (fun o => (t, o))) ∧
    ∀ r ∈ extractResults M sol,
      r.buy = sol (V.Buy r.oil r.month) ∧
      r.use = sol (V.Use r.oil r.month) ∧
      r.stock = sol (V.Stock r.oil r.month) := by
  refine ⟨rfl, rfl, rfl, ?_, ?_⟩
  · unfold extractResults
    rw [List.map_bind]
    simp [List.map_map, Function.comp_def]
  · intro r hr
    unfold extractResults at hr
    obtain ⟨t, ht, hr2⟩ := List.mem_bind.mp hr
    obtain ⟨o, ho, hor⟩ := List.mem_map.mp hr2
    subst hor
    exact ⟨rfl, rfl, rfl⟩

/-- Witness for C9 (amended) at the reference wrapper: the model field is
preserved and the projection of the records is the period-oil index
product. -/
theorem c9_witness :
    (solveStep refWrapper zeroAssign).1.model = refWrapper.model ∧
    (extractResults refModelC zeroAssign).map (fun r => (r.month, r.oil)) =
      refModelC.T.bind (fun t => refModelC.O.map (fun o => (t, o))) := by
  exact ⟨(c9_amended refModelC zeroAssign refWrapper).1,
    (c9_amended refModelC zeroAssign refWrapper).2.2.2.1⟩

/-- The parameter keys that `build` reads for the selected mode, in the
order the source accesses them. -/
def requiredKeys (useIntegerLogic : Bool) : List String :=
  ["storage_capacity_per_oil", "initial_stock", "target_final_stock",
   "max_veg_refine_per_month", "max_nonveg_refine_per_month",
   "min_hardness", "max_hardness"] ++
  (if useIntegerLogic then ["min_usage_if_used", "max_ingredients_per_month"]
   else []) ++
  ["product_sales_price", "storage_cost_per_ton"]

theorem getP_no_val {params : Params} {k : String} {e : BuildError}
    (h : getP params k = .error e) : e.isValidation = false := by
  unfold getP at h
  cases hl : params.lookup k with
  | some v => rw [hl] at h; simp at h
  | none =>
    rw [hl] at h
    simp only [Except.error.injEq] at h
    subst h
    rfl

theorem addCon_no_val {lhs : LinExpr} {rel : CRel} {rhs : LinExpr}
    {e : BuildError} (h : addCon lhs rel rhs = .error e) :
    e.isValidation = false := by
  unfold addCon at h
  split at h
  · simp only [Except.error.injEq] at h
    subst h
    rfl
  · simp at h

theorem mapME_no_val {α β : Type} {f : α → Except BuildError β} {xs : List α}
    {e : BuildError} (h : mapME f xs = .error e)
    (hf : ∀ x ∈ xs, ∀ e2, f x = .error e2 → e2.isValidation = false) :
    e.isValidation = false := by
  obtain ⟨x, hx, hfx⟩ := mapME_err h
  exact hf x hx e hfx

theorem except_bind_no_val {α β : Type} {e1 : Except BuildError α}
    {f : α → Except BuildError β} {err : BuildError}
    (h : Except.bind e1 f = .error err)
    (h1 : ∀ e2, e1 = .error e2 → e2.isValidation = false)
    (h2 : ∀ a e2, f a = .error e2 → e2.isValidation = false) :
    err.isValidation = false := by
  rcases except_bind_err h with he | ⟨a, ha, hfa⟩
  · exact h1 err he
  · exact h2 a err hfa

theorem balanceCon_no_val {s0 : ℚ} {tF : Nat} {T : List Nat} {o : String}
    {t : Nat} {e : BuildError} (h : balanceCon s0 tF T o t = .error e) :
    e.isValidation = false := by
  unfold balanceCon at h
  split at h
  · exact addCon_no_val h
  · split at h
    · exact addCon_no_val h
    · simp only [Except.error.injEq] at h
      subst h
      rfl

theorem logicCon_no_val {dep pre : String} {O : List String} {t : Nat}
    {e : BuildError} (h : logicCon dep pre O t = .error e) :
    e.isValidation = false := by
  unfold logicCon at h
  split at h
  · split at h
    · exact addCon_no_val h
    · simp only [Except.error.injEq] at h
      subst h
      rfl
  · simp only [Except.error.injEq] at h
    subst h
    rfl

theorem buildContCons_no_val {oils : List Oil} {params : Params} {T : List Nat}
    {O : List String} {e : BuildError}
    (h : buildContCons oils params T O = .error e) : e.isValidation = false := by
  unfold buildContCons at h
  refine except_bind_no_val h (fun e2 he => getP_no_val he) ?_
  intro s0 e2 h2
  refine except_bind_no_val h2
    (fun e3 he => mapME_no_val he (fun ot hot e4 h4 => balanceCon_no_val h4)) ?_
  intro balance e3 h3
  refine except_bind_no_val h3 (fun e4 he => getP_no_val he) ?_
  intro sf e4 h4
  refine except_bind_no_val h4
    (fun e5 he => mapME_no_val he (fun o ho e6 h6 => addCon_no_val h6)) ?_
  intro finals e5 h5
  refine except_bind_no_val h5 (fun e6 he => getP_no_val he) ?_
  intro vegCap e6 h6
  refine except_bind_no_val h6
    (fun e7 he => mapME_no_val he (fun t2 ht2 e8 h8 => addCon_no_val h8)) ?_
  intro vegCaps e7 h7
  refine except_bind_no_val h7 (fun e8 he => getP_no_val he) ?_
  intro nonvegCap e8 h8
  refine except_bind_no_val h8
    (fun e9 he => mapME_no_val he (fun t2 ht2 e10 h10 => addCon_no_val h10)) ?_
  intro nonvegCaps e9 h9
  refine except_bind_no_val h9
    (fun e10 he => mapME_no_val he (fun t2 ht2 e11 h11 => addCon_no_val h11)) ?_
  intro prodDefs e10 h10
  refine except_bind_no_val h10 (fun e11 he => getP_no_val he) ?_
  intro minH e11 h11
  refine except_bind_no_val h11
    (fun e12 he => mapME_no_val he (fun t2 ht2 e13 h13 => addCon_no_val h13)) ?_
  intro hMins e12 h12
  refine except_bind_no_val h12 (fun e13 he => getP_no_val he) ?_
  intro maxH e13 h13
  refine except_bind_no_val h13
    (fun e14 he => mapME_no_val he (fun t2 ht2 e15 h15 => addCon_no_val h15)) ?_
  intro hMaxs e14 h14
  simp at h14

theorem buildIntCons_no_val {params : Params} {T : List Nat} {O : List String}
    {e : BuildError} (h : buildIntCons params T O = .error e) :
    e.isValidation = false := by
  unfold buildIntCons at h
  refine except_bind_no_val h
    (fun e2 he => mapME_no_val he (fun ot hot e3 h3 => addCon_no_val h3)) ?_
  intro links e2 h2
  refine except_bind_no_val h2 (fun e3 he => getP_no_val he) ?_
  intro minU e3 h3
  refine except_bind_no_val h3
    (fun e4 he => mapME_no_val he (fun ot hot e5 h5 => addCon_no_val h5)) ?_
  intro mins e4 h4
  refine except_bind_no_val h4 (fun e5 he => getP_no_val he) ?_
  intro maxI e5 h5
  refine except_bind_no_val h5
    (fun e6 he => mapME_no_val he (fun t2 ht2 e7 h7 => addCon_no_val h7)) ?_
  intro maxIngs e6 h6
  refine except_bind_no_val h6
    (fun e7 he => mapME_no_val he (fun t2 ht2 e8 h8 => logicCon_no_val h8)) ?_
  intro lv1 e7 h7
  refine except_bind_no_val h7
    (fun e8 he => mapME_no_val he (fun t2 ht2 e9 h9 => logicCon_no_val h9)) ?_
  intro lv2 e8 h8
  simp at h8

theorem buildObjective_no_val {prices : PricesDF} {params : Params}
    {T : List Nat} {O : List String} {e : BuildError}
    (h : buildObjective prices params T O = .error e) :
    e.isValidation = false := by
  unfold buildObjective at h
  refine except_bind_no_val h (fun e2 he => getP_no_val he) ?_
  intro sale e2 h2
  refine except_bind_no_val h2
    (fun e3 he => mapME_no_val he (fun ot hot e4 h4 => ?_)) ?_
  · cases hloc : prices.loc ot.2 ot.1 with
    | some p => rw [hloc] at h4; simp at h4
    | none =>
      rw [hloc] at h4
      simp only [Except.error.injEq] at h4
      subst h4
      rfl
  · intro buyTerms e3 h3
    refine except_bind_no_val h3 (fun e4 he => getP_no_val he) ?_
    intro sc e4 h4
    simp at h4

theorem build_no_val {oils : List Oil} {prices : PricesDF} {params : Params}
    {flag : Bool} {e : BuildError}
    (h : build oils prices params flag = .error e) : e.isValidation = false := by
  unfold build at h
  refine except_bind_no_val h (fun e2 he => getP_no_val he) ?_
  intro storCap e2 h2
  refine except_bind_no_val h2 (fun e3 he => buildContCons_no_val he) ?_
  intro contCons e3 h3
  refine except_bind_no_val h3 (fun e4 he => ?_) ?_
  · cases flag
    · simp at he
    · rw [if_pos rfl] at he
      exact buildIntCons_no_val he
  · intro intCons e4 h4
    refine except_bind_no_val h4 (fun e5 he => buildObjective_no_val he) ?_
    intro obj e5 h5
    simp at h5

/-- CLAIM C6 (amended).  A successful build requires every parameter key of
the selected mode and a price entry for every (oil, period) pair, so
incomplete reference data makes the build fail; but the failure is a
KeyError raised by the offending lookup during construction, never the
dedicated ValidationError the spec names (no such class exists in the
code); with complete well-formed reference data both builds succeed. -/
theorem c6_amended :
    (∀ (oils : List Oil) (prices : PricesDF) (params : Params) (flag : Bool)
        (M : Model), build oils prices params flag = .ok M →
        (∀ k ∈ requiredKeys flag, (params.lookup k).isSome = true) ∧
        (∀ o ∈ M.O, ∀ t ∈ M.T, (prices.loc t o).isSome = true)) ∧
    (∀ (oils : List Oil) (prices : PricesDF) (params : Params) (flag : Bool)
        (e : BuildError), build oils prices params flag = .error e →
        e.isValidation = false) ∧
    build load_oils_data load_market_prices get_parameters false = .ok refModelC ∧
    build load_oils_data load_market_prices get_parameters true = .ok refModelD := by
  refine ⟨?_, fun oils prices params flag e h => build_no_val h, refC_ok, refD_ok⟩
  intro oils prices params flag M hb
  obtain ⟨storCap, contCons, intCons, obj, hscp, hcc, hic, hobj, hM⟩ := build_ok hb
  obtain ⟨s0x, balance, sfx, finals, vegCap, vegCaps, nonvegCap, nonvegCaps,
    prodDefs, minHx, hMins, maxHx, hMaxs, hs0x, hbal, hsfx, hfin, hvc, hvcs,
    hnvc, hnvcs, hpd, hminx, hmins, hmaxx, hmaxs, hcs⟩ := buildContCons_ok hcc
  obtain ⟨sale, buyTerms, sc2, hsale, hbt, hsc2, hoe⟩ := buildObjective_ok hobj
  constructor
  · intro k hk
    cases flag with
    | false =>
      have hk2 : k = "storage_capacity_per_oil" ∨ k = "initial_stock" ∨
          k = "target_final_stock" ∨ k = "max_veg_refine_per_month" ∨
          k = "max_nonveg_refine_per_month" ∨ k = "min_hardness" ∨
          k = "max_hardness" ∨ k = "product_sales_price" ∨
          k = "storage_cost_per_ton" := by
        simp [requiredKeys] at hk
        tauto
      rcases hk2 with rfl | rfl | rfl | rfl | rfl | rfl | rfl | rfl | rfl
      · rw [getP_lookup hscp]; rfl
      · rw [getP_lookup hs0x]; rfl
      · rw [getP_lookup hsfx]; rfl
      · rw [getP_lookup hvc]; rfl
      · rw [getP_lookup hnvc]; rfl
      · rw [getP_lookup hminx]; rfl
      · rw [getP_lookup hmaxx]; rfl
      · rw [getP_lookup hsale]; rfl
      · rw [getP_lookup hsc2]; rfl
    | true =>
      rw [if_pos rfl] at hic
      obtain ⟨links, minUx, mins, maxI, maxIngs, lv1, lv2, hlinks, hmux, hminsI,
        hmaxI, hmaxIngs, hlv1, hlv2, hics⟩ := buildIntCons_ok hic
      have hk2 : k = "storage_capacity_per_oil" ∨ k = "initial_stock" ∨
          k = "target_final_stock" ∨ k = "max_veg_refine_per_month" ∨
          k = "max_nonveg_refine_per_month" ∨ k = "min_hardness" ∨
          k = "max_hardness" ∨ k = "min_usage_if_used" ∨
          k = "max_ingredients_per_month" ∨ k = "product_sales_price" ∨
          k = "storage_cost_per_ton" := by
        simp [requiredKeys] at hk
        tauto
      rcases hk2 with rfl | rfl | rfl | rfl | rfl | rfl | rfl | rfl | rfl | rfl | rfl
      · rw [getP_lookup hscp]; rfl
      · rw [getP_lookup hs0x]; rfl
      · rw [getP_lookup hsfx]; rfl
      · rw [getP_lookup hvc]; rfl
      · rw [getP_lookup hnvc]; rfl
      · rw [getP_lookup hminx]; rfl
      · rw [getP_lookup hmaxx]; rfl
      · rw [getP_lookup hmux]; rfl
      · rw [getP_lookup hmaxI]; rfl
      · rw [getP_lookup hsale]; rfl
      · rw [getP_lookup hsc2]; rfl
  · intro o ho t ht
    rw [hM] at ho ht
    dsimp only at ho ht
    obtain ⟨y, hymem, hy⟩ := mapME_ok_forall hbt (o, t) (prodOT_mem.mpr ⟨ho, ht⟩)
    cases hloc : prices.loc t o with
    | none =>
      dsimp only at hy
      rw [hloc] at hy
      simp at hy
    | some p => rfl

/-- The reference parameters with the key initial_stock removed. -/
def paramsNoInitialStock : Params :=
  [("storage_cost_per_ton", 5),
   ("product_sales_price", 150),
   ("max_veg_refine_per_month", 200),
   ("max_nonveg_refine_per_month", 250),
   ("storage_capacity_per_oil", 1000),
   ("target_final_stock", 500),
   ("min_hardness", 3),
   ("max_hardness", 6),
   ("min_usage_if_used", 20),
   ("max_ingredients_per_month", 3)]

/-- Counterexample to C6 as stated: with a missing required parameter the
build fails with the KeyError of the missing dict key, an error that is not
the ValidationError the claim names. -/
theorem c6_counterexample :
    build load_oils_data load_market_prices paramsNoInitialStock false =
      .error (.keyError "initial_stock") ∧
    BuildError.isValidation (.keyError "initial_stock") = false := by
  exact ⟨by rfl, by rfl⟩

/-- Witness for C6 (amended) at the reference data: the discrete-mode build
succeeds, so the discrete-only key and an arbitrary price entry are
present. -/
theorem c6_witness :
    (get_parameters.lookup "min_usage_if_used").isSome = true ∧
    (load_market_prices.loc 1 "VEG1").isSome = true := by
  have h := c6_amended.1 load_oils_data load_market_prices get_parameters true
    refModelD refD_ok
  exact ⟨h.1 "min_usage_if_used" (by decide), h.2 "VEG1" (by decide) 1 (by decide)⟩

/-- True exactly on the IsUsed decision variables. -/
def isIsUsedV : V → Bool
  | V.IsUsed _ _ => true
  | _ => false

/-- True exactly on a one-term linear expression 1 * IsUsed[o,t]. -/
def isIsUsedUnit : List (ℚ × V) → Bool
  | [p] => isIsUsedV p.2 && (p.1 == 1)
  | _ => false

/-- Recognizes a Logical Implication constraint instance
IsUsed[dep,t] <= IsUsed[pre,t] by its shape. -/
def isLogicCon (c : Constr) : Bool :=
  isIsUsedUnit c.lhs.terms && isIsUsedUnit c.rhs.terms &&
    (c.lhs.const == 0) && (c.rhs.const == 0) && (c.rel == CRel.le)

/-- CLAIM C7 (amended).  In discrete mode the Logical Implication family is
instantiated once per period and per (dependent, prerequisite) pair, but
the set of pairs is the hardcoded policy (VEG1, OIL3), (VEG2, OIL3) of the
model builder, the same for every parameter dictionary: the constraints of
that shape in any successfully built discrete model are exactly the two
hardcoded families over the period set. -/
theorem c7_amended {oils : List Oil} {prices : PricesDF} {params : Params}
    {M : Model} (hb : build oils prices params true = .ok M) :
    M.cons.filter isLogicCon =
      prices.months.map (fun t =>
        (⟨⟨[(1, V.IsUsed "VEG1" t)], 0⟩, .le, ⟨[(1, V.IsUsed "OIL3" t)], 0⟩⟩ : Constr)) ++
      prices.months.map (fun t =>
        (⟨⟨[(1, V.IsUsed "VEG2" t)], 0⟩, .le, ⟨[(1, V.IsUsed "OIL3" t)], 0⟩⟩ : Constr)) := by
  obtain ⟨storCap, contCons, intCons, obj, hscp, hcc, hic, hobj, hM⟩ := build_ok hb
  rw [if_pos rfl] at hic
  obtain ⟨links, minUx, mins, maxI, maxIngs, lv1, lv2, hlinks, hmux, hminsI,
    hmaxI, hmaxIngs, hlv1, hlv2, hics⟩ := buildIntCons_ok hic
  obtain ⟨s0x, balance, sfx, finals, vegCap, vegCaps, nonvegCap, nonvegCaps,
    prodDefs, minHx, hMins, maxHx, hMaxs, hs0x, hbal, hsfx, hfin, hvc, hvcs,
    hnvc, hnvcs, hpd, hminx, hmins, hmaxx, hmaxs, hcs⟩ := buildContCons_ok hcc
  subst hM
  dsimp only
  have hccf : contCons.filter isLogicCon = [] := by
    rw [List.filter_eq_nil]
    intro c hc
    rw [hcs] at hc
    rcases List.mem_append.mp hc with hc | hcmax
    rotate_left
    · obtain ⟨t, ht, hco⟩ := mapME_ok_mem hmaxs c hcmax
      unfold hardnessMaxCon at hco
      rw [addCon_eq hco]
      simp [isLogicCon, isIsUsedUnit, isIsUsedV]
    rcases List.mem_append.mp hc with hc | hcmin
    rotate_left
    · obtain ⟨t, ht, hco⟩ := mapME_ok_mem hmins c hcmin
      unfold hardnessMinCon at hco
      rw [addCon_eq hco]
      simp [isLogicCon, isIsUsedUnit, isIsUsedV]
    rcases List.mem_append.mp hc with hc | hcprod
    rotate_left
    · obtain ⟨t, ht, hco⟩ := mapME_ok_mem hpd c hcprod
      unfold productionCon at hco
      rw [addCon_eq hco]
      simp [isLogicCon, isIsUsedUnit, isIsUsedV]
    rcases List.mem_append.mp hc with hc | hcnv
    rotate_left
    · obtain ⟨t, ht, hco⟩ := mapME_ok_mem hnvcs c hcnv
      unfold capacityCon at hco
      rw [addCon_eq hco]
      simp [isLogicCon, isIsUsedUnit, isIsUsedV]
    rcases List.mem_append.mp hc with hc | hcvc
    rotate_left
    · obtain ⟨t, ht, hco⟩ := mapME_ok_mem hvcs c hcvc
      unfold capacityCon at hco
      rw [addCon_eq hco]
      simp [isLogicCon, isIsUsedUnit, isIsUsedV]
    rcases List.mem_append.mp hc with hcbal | hcfin
    · obtain ⟨⟨o, t⟩, hot, hco⟩ := mapME_ok_mem hbal c hcbal
      unfold balanceCon at hco
      dsimp only at hco
      split at hco
      · rw [addCon_eq hco]
        simp [isLogicCon, isIsUsedUnit, isIsUsedV]
      · split at hco
        · rw [addCon_eq hco]
          simp [isLogicCon, isIsUsedUnit, isIsUsedV]
        · simp at hco
    · obtain ⟨o, ho, hco⟩ := mapME_ok_mem hfin c hcfin
      unfold finalStockCon at hco
      rw [addCon_eq hco]
      simp [isLogicCon, isIsUsedUnit, isIsUsedV]
  have hlinksf : links.filter isLogicCon = [] := by
    rw [List.filter_eq_nil]
    intro c hc
    obtain ⟨⟨o, t⟩, hot, hco⟩ := mapME_ok_mem hlinks c hc
    unfold linkCon at hco
    rw [addCon_eq hco]
    simp [isLogicCon, isIsUsedUnit, isIsUsedV]
  have hminsf : mins.filter isLogicCon = [] := by
    rw [List.filter_eq_nil]
    intro c hc
    obtain ⟨⟨o, t⟩, hot, hco⟩ := mapME_ok_mem hminsI c hc
    unfold minUsageCon at hco
    rw [addCon_eq hco]
    simp [isLogicCon, isIsUsedUnit, isIsUsedV]
  have hmaxIf : maxIngs.filter isLogicCon = [] := by
    rw [List.filter_eq_nil]
    intro c hc
    obtain ⟨t, ht, hco⟩ := mapME_ok_mem hmaxIngs c hc
    unfold maxIngredientsCon at hco
    rw [addCon_eq hco]
    simp [isLogicCon, isIsUsedUnit, isIsUsedV]
  have hlv1e : lv1 = prices.months.map (fun t =>
      (⟨⟨[(1, V.IsUsed "VEG1" t)], 0⟩, .le, ⟨[(1, V.IsUsed "OIL3" t)], 0⟩⟩ : Constr)) := by
    apply mapME_ok_eq_map hlv1
    intro t ht y hy
    unfold logicCon at hy
    by_cases h1 : "VEG1" ∈ oils.map (fun x => x.id)
    · rw [if_pos h1] at hy
      by_cases h2 : "OIL3" ∈ oils.map (fun x => x.id)
      · rw [if_pos h2] at hy
        exact (addCon_eq hy).symm ▸ rfl
      · rw [if_neg h2] at hy
        simp at hy
    · rw [if_neg h1] at hy
      simp at hy
  have hlv2e : lv2 = prices.months.map (fun t =>
      (⟨⟨[(1, V.IsUsed "VEG2" t)], 0⟩, .le, ⟨[(1, V.IsUsed "OIL3" t)], 0⟩⟩ : Constr)) := by
    apply mapME_ok_eq_map hlv2
    intro t ht y hy
    unfold logicCon at hy
    by_cases h1 : "VEG2" ∈ oils.map (fun x => x.id)
    · rw [if_pos h1] at hy
      by_cases h2 : "OIL3" ∈ oils.map (fun x => x.id)
      · rw [if_pos h2] at hy
        exact (addCon_eq hy).symm ▸ rfl
      · rw [if_neg h2] at hy
        simp at hy
    · rw [if_neg h1] at hy
      simp at hy
  have hlv1f : lv1.filter isLogicCon = lv1 := by
    rw [List.filter_eq_self]
    intro c hc
    rw [hlv1e] at hc
    obtain ⟨t, ht, hct⟩ := List.mem_map.mp hc
    rw [← hct]
    rfl
  have hlv2f : lv2.filter isLogicCon = lv2 := by
    rw [List.filter_eq_self]
    intro c hc
    rw [hlv2e] at hc
    obtain ⟨t, ht, hct⟩ := List.mem_map.mp hc
    rw [← hct]
    rfl
  rw [hics]
  simp only [List.filter_append, hccf, hlinksf, hminsf, hmaxIf, hlv1f, hlv2f,
    List.nil_append]
  rw [hlv1e, hlv2e]

/-- A parameter dictionary with the same keys as the reference one but every
value changed. -/
def paramsScaled : Params := get_parameters.map (fun kv => (kv.1, kv.2 + 1))

/-- The twelve Logical Implication constraint instances the builder always
emits over the six reference periods: the hardcoded pairs (VEG1, OIL3) and
(VEG2, OIL3). -/
def hardcodedLogicCons : List Constr :=
  [1, 2, 3, 4, 5, 6].map (fun t =>
    (⟨⟨[(1, V.IsUsed "VEG1" t)], 0⟩, .le, ⟨[(1, V.IsUsed "OIL3" t)], 0⟩⟩ : Constr)) ++
  [1, 2, 3, 4, 5, 6].map (fun t =>
    (⟨⟨[(1, V.IsUsed "VEG2" t)], 0⟩, .le, ⟨[(1, V.IsUsed "OIL3" t)], 0⟩⟩ : Constr))

/-- Counterexample to C7 as stated: the (dependent, prerequisite) pairs are
not taken from Parameters.  Two parameter dictionaries that differ in every
value produce discrete models with identical Logical Implication
constraints, namely the hardcoded pairs (VEG1, OIL3) and (VEG2, OIL3); no
Parameters key describes dependency pairs. -/
theorem c7_counterexample :
    paramsScaled ≠ get_parameters ∧
    ((build load_oils_data load_market_prices paramsScaled true).toOption.map
      (fun M => M.cons.filter isLogicCon)) = some hardcodedLogicCons ∧
    ((build load_oils_data load_market_prices get_parameters true).toOption.map
      (fun M => M.cons.filter isLogicCon)) = some hardcodedLogicCons := by
  exact ⟨by decide, by rfl, by rfl⟩

/-- Witness for C7 (amended): the discrete reference model contains exactly
the twelve hardcoded Logical Implication instances, one per period per
pair. -/
theorem c7_witness :
    refModelD.cons.filter isLogicCon =
      load_market_prices.months.map (fun t =>
        (⟨⟨[(1, V.IsUsed "VEG1" t)], 0⟩, .le, ⟨[(1, V.IsUsed "OIL3" t)], 0⟩⟩ : Constr)) ++
      load_market_prices.months.map (fun t =>
        (⟨⟨[(1, V.IsUsed "VEG2" t)], 0⟩, .le, ⟨[(1, V.IsUsed "OIL3" t)], 0⟩⟩ : Constr)) :=
  c7_amended refD_ok
